import Mathlib

/-!
Verification of the file-status proxy (src/proxy/api.py).

The Python module keeps an in-memory cache of upstream file records:
`files_unprocessed` (pending), `files` (completed) and `last_file_index`
(the listing cursor).  A listing poller appends new pending records, a
status checker promotes finished records and discards terminal failures,
and a lookup endpoint merges detail and segment payloads for completed
files.  Upstream HTTP calls are modelled by oracles: a listing oracle
maps (offset, limit) to a transport failure, a non-200 response, or a
200 response with a JSON body; detail/segment oracles map a file id to
`none` (any failing response, which the code turns into an exception)
or a payload.  The status-checker recursion is bounded by an explicit
fuel argument which is proved sufficient below, so every definition is
executable.
-/

set_option autoImplicit false

/-- One element of the upstream listing body: an object with the
fileId and processingStatus attributes. -/
structure Entry where
  fileId : String
  processingStatus : String
deriving DecidableEq

/-- Mirrors class FileInfoCache (api.py lines 17-27). -/
structure FileInfoCache where
  index : Nat
  file_id : String
  status : String
deriving DecidableEq

/-- Mirrors FileInfoCache.is_complete. -/
def FileInfoCache.is_complete (f : FileInfoCache) : Bool :=
  f.status == "FINISHED"

/-- Mirrors FileInfoCache.is_processing. -/
def FileInfoCache.is_processing (f : FileInfoCache) : Bool :=
  f.status == "PROCESSING"

/-- The mutable state of FileInfoHolder: completed records, pending
records and the listing cursor (api.py lines 33-35). -/
structure FileInfoHolder where
  files : List FileInfoCache
  files_unprocessed : List FileInfoCache
  last_file_index : Nat
deriving DecidableEq

/-- The state right after FileInfoHolder.__init__. -/
def initState : FileInfoHolder :=
  { files := [], files_unprocessed := [], last_file_index := 0 }

/-- Outcome of one upstream GET on /file/all: a transport error
(httpx raises), a non-200 response, or a 200 response with a body. -/
inductive UResp where
  | err
  | notOk
  | ok (body : List Entry)
deriving DecidableEq

/-- The upstream listing service, as seen through httpx.get:
offset and limit parameters to a response. -/
abbrev Oracle := Nat → Nat → UResp

/-- Mirrors fetch_files_info (api.py lines 96-102): a non-200 response
is logged and mapped to the empty list, a 200 body is returned as is,
and a transport error propagates as an exception (Except.error). -/
def fetch_files_info (u : Oracle) (offset : Nat) (limit : Nat) : Except Unit (List Entry) :=
  match u offset limit with
  | UResp.err => Except.error ()
  | UResp.notOk => Except.ok []
  | UResp.ok body => Except.ok body

/-- Mirrors poll_for_new_files (api.py lines 49-60): fetch a page of at
most 5 entries at the cursor, append one pending record per entry with
index cursor + offset-within-page, advance the cursor by the page
length, and report whether the page was empty (the do_sleep flag).
An exception from the fetch propagates. -/
def poll_for_new_files (u : Oracle) (s : FileInfoHolder) :
    Except Unit (FileInfoHolder × Bool) :=
  match fetch_files_info u s.last_file_index 5 with
  | Except.error e => Except.error e
  | Except.ok files =>
      let recs := files.enum.map (fun p =>
        FileInfoCache.mk (s.last_file_index + p.1) p.2.fileId p.2.processingStatus)
      Except.ok
        ({ files := s.files
         , files_unprocessed := s.files_unprocessed ++ recs
         , last_file_index := s.last_file_index + files.length },
         files.length == 0)

/-- One iteration of poll_event_loop (api.py lines 40-47): run
poll_for_new_files; on success sleep 5 seconds when do_sleep is set and
0 otherwise; an exception is caught and logged, and in that case the
sleep is skipped entirely (the time.sleep call sits inside the try
block, after the call that raised).  Returns the new state and the
slept duration. -/
def poll_event_iter (u : Oracle) (s : FileInfoHolder) : FileInfoHolder × Nat :=
  match poll_for_new_files u s with
  | Except.error _ => (s, 0)
  | Except.ok (s', do_sleep) => (s', if do_sleep then 5 else 0)

/-- Apply one successfully returned listing page to the state (the
effect of poll_for_new_files when the wire call returns 200 with this
body). -/
def poll_apply_page (page : List Entry) (s : FileInfoHolder) : FileInfoHolder :=
  match poll_for_new_files (fun _ _ => UResp.ok page) s with
  | Except.ok (s', _) => s'
  | Except.error _ => s

/-- Apply a sequence of successfully returned listing pages in order. -/
def poll_pages (pages : List (List Entry)) (s : FileInfoHolder) : FileInfoHolder :=
  pages.foldl (fun st page => poll_apply_page page st) s

/-- The exceptions that can escape one pass of check_file_status:
a transport error from httpx, an IndexError from the subscript [0] on
an empty fetch result, or the ValueError raised on a fileId mismatch
(api.py lines 77-79).  Each carries the listing index involved. -/
inductive CheckError where
  | transport (i : Nat)
  | indexError (i : Nat)
  | valueError (i : Nat)
deriving DecidableEq

/-- The treatment of a single pending record inside the loop of
check_file_status (api.py lines 75-80): a record still in-progress gets
a single-item status fetch at its index, a mismatched fileId raises
ValueError, an empty fetch result raises IndexError at the subscript
[0], and otherwise the record's status is overwritten in place; a
record not in-progress is left untouched and no fetch is issued.  The
second component records the indices fetched. -/
def checkOne (u : Oracle) (f : FileInfoCache) :
    Except CheckError FileInfoCache × List Nat :=
  if f.is_processing then
    (match fetch_files_info u f.index 1 with
     | Except.error _ => Except.error (CheckError.transport f.index)
     | Except.ok entries =>
       match entries.head? with
       | none => Except.error (CheckError.indexError f.index)
       | some st =>
         if st.fileId == f.file_id then
           Except.ok { f with status := st.processingStatus }
         else Except.error (CheckError.valueError f.index),
     [f.index])
  else (Except.ok f, [])

/-- The for-loop of check_file_status over files_unprocessed.  On
success it returns the list with statuses updated in place; on an
exception it returns the error together with the list as it stands at
that moment: records before the failure keep their (already applied)
in-place status updates, the failing record and all later records are
unchanged, and nothing has been removed or promoted.  The second
component accumulates the indices fetched before (and including) the
failure. -/
def checkPass (u : Oracle) :
    List FileInfoCache →
      Except (CheckError × List FileInfoCache) (List FileInfoCache) × List Nat
  | [] => (Except.ok [], [])
  | f :: rest =>
    match checkOne u f with
    | (Except.error e, log) => (Except.error (e, f :: rest), log)
    | (Except.ok f', log) =>
      match checkPass u rest with
      | (Except.error (e, rest'), log') => (Except.error (e, f' :: rest'), log ++ log')
      | (Except.ok rest', log') => (Except.ok (f' :: rest'), log ++ log')

/-- check_file_status (api.py lines 72-94), with the self-recursion
made explicit through a fuel argument (proved sufficient below).  One
pass runs the loop; on an exception the partially updated pending list
is kept and the error escapes with nothing removed or promoted.  On a
completed pass, completed records (now FINISHED) and failed records
(neither FINISHED nor PROCESSING) are removed from pending, completed
records are appended to files, and if at least one record completed
the whole pass is re-run immediately.  The result carries the final
state, the list of per-pass promotion counts, and the escaped error if
any.  none signals fuel exhaustion and is never reached from
check_file_status. -/
def checkChainAux (u : Oracle) :
    Nat → FileInfoHolder → Option (FileInfoHolder × List Nat × Option CheckError)
  | 0, _ => none
  | fuel + 1, s =>
    match (checkPass u s.files_unprocessed).1 with
    | Except.error (e, l') =>
        some ({ files := s.files, files_unprocessed := l'
              , last_file_index := s.last_file_index }, [0], some e)
    | Except.ok l' =>
      let comp := l'.filter (fun f => f.is_complete)
      let remaining := l'.filter (fun f => !f.is_complete && f.is_processing)
      let s' : FileInfoHolder :=
        { files := s.files ++ comp, files_unprocessed := remaining
        , last_file_index := s.last_file_index }
      if comp.length = 0 then some (s', [0], none)
      else
        match checkChainAux u fuel s' with
        | none => none
        | some (s'', ps, e) => some (s'', comp.length :: ps, e)

/-- One call of check_file_status, fuel instantiated with a provably
sufficient bound (each re-run strictly shrinks pending). -/
def check_file_status (u : Oracle) (s : FileInfoHolder) :
    FileInfoHolder × List Nat × Option CheckError :=
  (checkChainAux u (s.files_unprocessed.length + 1) s).getD (s, [], none)

/-- Observable events of one check_event_loop iteration: an
authoritative pass over pending (with its promotion count) or the
fixed 5-second sleep. -/
inductive Ev where
  | passEv (promoted : Nat)
  | sleepEv
deriving DecidableEq

/-- The event trace of one iteration of check_event_loop (api.py lines
62-70): the passes run by check_file_status back to back (an exception
is caught and logged), followed by the unconditional time.sleep(5). -/
def check_iter_trace (u : Oracle) (s : FileInfoHolder) : List Ev :=
  ((check_file_status u s).2.1).map Ev.passEv ++ [Ev.sleepEv]

/-- The state after one iteration of check_event_loop: whatever
check_file_status left behind, the exception (if any) being caught at
the loop boundary. -/
def check_event_iter (u : Oracle) (s : FileInfoHolder) : FileInfoHolder :=
  (check_file_status u s).1

/-- A value inside the file-detail JSON object: either an opaque
scalar/object or the array of segments installed by the aggregator. -/
inductive DVal where
  | atom (s : String)
  | segArr (xs : List String)
deriving DecidableEq

/-- Python dict assignment d[k] = v: replace the value of an existing
key in place, otherwise append the new key at the end. -/
def setKey (d : List (String × DVal)) (k : String) (v : DVal) :
    List (String × DVal) :=
  if d.any (fun p => p.1 == k) then
    d.map (fun p => if p.1 == k then (k, v) else p)
  else d ++ [(k, v)]

/-- One request-scoped upstream read issued by the detail aggregator. -/
inductive ReadEv where
  | detail (file_id : String)
  | segments (file_id : String)
deriving DecidableEq

/-- Mirrors fetch_and_combine_file_info together with
fetch_file_details and fetch_file_segments (api.py lines 104-118): read
the detail object, then the segment list, asserting a 200 on each (a
failing read, modelled as none, raises and aborts the whole request),
and store the segment list under the segments key of the detail
object.  The second component is the list of reads actually issued. -/
def fetch_and_combine_file_info (det : String → Option (List (String × DVal)))
    (seg : String → Option (List String)) (file_id : String) :
    Option (List (String × DVal)) × List ReadEv :=
  match det file_id with
  | none => (none, [ReadEv.detail file_id])
  | some d =>
    match seg file_id with
    | none => (none, [ReadEv.detail file_id, ReadEv.segments file_id])
    | some ss =>
      (some (setKey d "segments" (DVal.segArr ss)),
       [ReadEv.detail file_id, ReadEv.segments file_id])

/-- HTTP outcome of the lookup endpoint: 200 with the merged object,
the 404 not-found body, or a 5xx from an uncaught aggregation
exception. -/
inductive Resp where
  | ok (body : List (String × DVal))
  | notFound
  | serverError
deriving DecidableEq

/-- Mirrors get_file (api.py lines 124-132): scan files (completed) for
the first record with this file_id; if none, answer 404 with the
File info not found body, issuing no upstream read; otherwise invoke
the aggregator and answer 200 with its result, an aggregation failure
escaping as a server error. -/
def get_file (s : FileInfoHolder) (det : String → Option (List (String × DVal)))
    (seg : String → Option (List String)) (file_id : String) :
    Resp × List ReadEv :=
  match s.files.find? (fun x => x.file_id == file_id) with
  | none => (Resp.notFound, [])
  | some _ =>
    match fetch_and_combine_file_info det seg file_id with
    | (none, log) => (Resp.serverError, log)
    | (some d, log) => (Resp.ok d, log)

/-- The (index, file_id) signature of a record: everything the checker
never rewrites. -/
def sig (f : FileInfoCache) : Nat × String := (f.index, f.file_id)

/-- All records currently held by the cache, pending first. -/
def recs (s : FileInfoHolder) : List FileInfoCache :=
  s.files_unprocessed ++ s.files

/-- The listing indices of all records currently held. -/
def idxs (s : FileInfoHolder) : List Nat :=
  (recs s).map (fun r => r.index)

/-- The upstream listing assigns a fixed file id to every listing
position; any successful listing response is consistent with that
assignment (entry j of a page at offset o carries the file id of
position o + j). -/
def ValidListing (fid : Nat → String) (u : Oracle) : Prop :=
  ∀ o l es j e, u o l = UResp.ok es → es[j]? = some e → e.fileId = fid (o + j)

/-- One transition of the system: either one poll_event_loop iteration
against some listing-consistent oracle, or one check_event_loop
iteration against an arbitrary oracle (the per-index status may change
between calls, and the checker defends itself against inconsistent
ids). -/
inductive Step (fid : Nat → String) : FileInfoHolder → FileInfoHolder → Prop where
  | poll (u : Oracle) (s : FileInfoHolder) (hu : ValidListing fid u) :
      Step fid s (poll_event_iter u s).1
  | check (u : Oracle) (s : FileInfoHolder) :
      Step fid s (check_file_status u s).1

/-- States reachable from the freshly initialised holder. -/
def Reachable (fid : Nat → String) (s : FileInfoHolder) : Prop :=
  Relation.ReflTransGen (Step fid) initState s

/-- Structural invariant of the cache: held indices are distinct and
below the cursor, and every held record carries the file id of its
listing position. -/
def CacheInv (fid : Nat → String) (s : FileInfoHolder) : Prop :=
  (idxs s).Nodup ∧ (∀ r ∈ recs s, r.index < s.last_file_index) ∧
    (∀ r ∈ recs s, r.file_id = fid r.index)

/-! ### Basic facts about record status -/

theorem complete_not_processing {f : FileInfoCache} (h : f.is_complete = true) :
    f.is_processing = false := by
  have hs : f.status = "FINISHED" := by
    simpa [FileInfoCache.is_complete] using h
  simp [FileInfoCache.is_processing, hs]

theorem processing_not_complete {f : FileInfoCache} (h : f.is_processing = true) :
    f.is_complete = false := by
  have hs : f.status = "PROCESSING" := by
    simpa [FileInfoCache.is_processing] using h
  simp [FileInfoCache.is_complete, hs]

/-! ### Facts about checkOne -/

theorem checkOne_not_processing (u : Oracle) {f : FileInfoCache}
    (h : f.is_processing = false) : checkOne u f = (Except.ok f, []) := by
  simp [checkOne, h]

theorem checkOne_log (u : Oracle) (f : FileInfoCache) :
    (checkOne u f).2 = if f.is_processing then [f.index] else [] := by
  by_cases h : f.is_processing
  · simp [checkOne, h]
  · simp [checkOne, h]

theorem checkOne_ok_sig (u : Oracle) {f f' : FileInfoCache}
    (h : (checkOne u f).1 = Except.ok f') : sig f' = sig f := by
  by_cases hp : f.is_processing
  · simp only [checkOne, hp, if_true] at h
    cases hf : fetch_files_info u f.index 1 with
    | error e => rw [hf] at h; simp at h
    | ok entries =>
      rw [hf] at h
      dsimp only at h
      cases hh : entries.head? with
      | none => rw [hh] at h; simp at h
      | some st =>
        rw [hh] at h
        by_cases hid : st.fileId == f.file_id
        · simp only [hid, if_true] at h
          cases h
          simp [sig]
        · simp [hid] at h
  · rw [checkOne_not_processing u (by simpa using hp)] at h
    cases h
    rfl

theorem checkOne_err_processing (u : Oracle) {f : FileInfoCache} {e : CheckError}
    (h : (checkOne u f).1 = Except.error e) : f.is_processing = true := by
  by_cases hp : f.is_processing
  · exact hp
  · rw [checkOne_not_processing u (by simpa using hp)] at h
    cases h

theorem checkOne_err_valueError (u : Oracle) {f : FileInfoCache} {i : Nat}
    (h : (checkOne u f).1 = Except.error (CheckError.valueError i)) :
    f.index = i := by
  have hp : f.is_processing = true := checkOne_err_processing u h
  simp only [checkOne, hp, if_true] at h
  cases hf : fetch_files_info u f.index 1 with
  | error e => rw [hf] at h; simp_all
  | ok entries =>
    rw [hf] at h
    dsimp only at h
    cases hh : entries.head? with
    | none => rw [hh] at h; simp_all
    | some st =>
      rw [hh] at h
      by_cases hid : st.fileId == f.file_id
      · simp [hid] at h
      · simp only [hid, if_false, Bool.false_eq_true] at h
        simp_all

theorem checkOne_err_indexError (u : Oracle) {f : FileInfoCache} {i : Nat}
    (h : (checkOne u f).1 = Except.error (CheckError.indexError i)) :
    f.index = i ∧ fetch_files_info u f.index 1 = Except.ok [] := by
  have hp : f.is_processing = true := checkOne_err_processing u h
  simp only [checkOne, hp, if_true] at h
  cases hf : fetch_files_info u f.index 1 with
  | error e => rw [hf] at h; simp_all
  | ok entries =>
    rw [hf] at h
    dsimp only at h
    cases hh : entries.head? with
    | none =>
      rw [hh] at h
      have : entries = [] := List.head?_eq_none_iff.mp hh
      simp_all
    | some st =>
      rw [hh] at h
      by_cases hid : st.fileId == f.file_id
      · simp [hid] at h
      · simp only [hid, if_false, Bool.false_eq_true] at h
        simp_all

/-! ### Facts about one loop sweep (checkPass) -/

theorem checkPass_ok_sig (u : Oracle) :
    ∀ {l l' : List FileInfoCache}, (checkPass u l).1 = Except.ok l' →
      l'.map sig = l.map sig := by
  intro l
  induction l with
  | nil =>
    intro l' h
    simp only [checkPass] at h
    injection h with h
    subst h
    rfl
  | cons f rest ih =>
    intro l' h
    simp only [checkPass] at h
    cases hc : checkOne u f with
    | mk r log =>
      rw [hc] at h
      cases r with
      | error e => dsimp only at h; simp at h
      | ok f' =>
        dsimp only at h
        cases hr : checkPass u rest with
        | mk r' log' =>
          rw [hr] at h
          cases r' with
          | error p =>
            cases p with
            | mk e rest' => dsimp only at h; simp at h
          | ok rest' =>
            dsimp only at h
            injection h with h
            subst h
            have h1 : sig f' = sig f := checkOne_ok_sig u (by rw [hc])
            have h2 : rest'.map sig = rest.map sig := ih (by rw [hr])
            simp [h1, h2]

theorem checkPass_ok_length (u : Oracle) {l l' : List FileInfoCache}
    (h : (checkPass u l).1 = Except.ok l') : l'.length = l.length := by
  have := congrArg List.length (checkPass_ok_sig u h)
  simpa using this

theorem checkPass_err_sig (u : Oracle) :
    ∀ {l l' : List FileInfoCache} {e : CheckError},
      (checkPass u l).1 = Except.error (e, l') → l'.map sig = l.map sig := by
  intro l
  induction l with
  | nil =>
    intro l' e h
    simp only [checkPass] at h
    simp at h
  | cons f rest ih =>
    intro l' e h
    simp only [checkPass] at h
    cases hc : checkOne u f with
    | mk r log =>
      rw [hc] at h
      cases r with
      | error e0 =>
        dsimp only at h
        injection h with h
        injection h with h1 h2
        subst h2
        rfl
      | ok f' =>
        dsimp only at h
        cases hr : checkPass u rest with
        | mk r' log' =>
          rw [hr] at h
          cases r' with
          | error p =>
            cases p with
            | mk e0 rest' =>
              dsimp only at h
              injection h with h
              injection h with h1 h2
              subst h2
              have hs1 : sig f' = sig f := checkOne_ok_sig u (by rw [hc])
              have hs2 : rest'.map sig = rest.map sig := ih (by rw [hr])
              simp [hs1, hs2]
          | ok rest' => dsimp only at h; simp at h

theorem checkPass_err_mem (u : Oracle) :
    ∀ {l l' : List FileInfoCache} {e : CheckError},
      (checkPass u l).1 = Except.error (e, l') →
        ∃ r, r ∈ l ∧ r ∈ l' ∧ (checkOne u r).1 = Except.error e := by
  intro l
  induction l with
  | nil =>
    intro l' e h
    simp only [checkPass] at h
    simp at h
  | cons f rest ih =>
    intro l' e h
    simp only [checkPass] at h
    cases hc : checkOne u f with
    | mk r log =>
      rw [hc] at h
      cases r with
      | error e0 =>
        dsimp only at h
        injection h with h
        injection h with h1 h2
        subst h1
        subst h2
        exact ⟨f, List.mem_cons_self f rest, List.mem_cons_self f rest, by rw [hc]⟩
      | ok f' =>
        dsimp only at h
        cases hr : checkPass u rest with
        | mk r' log' =>
          rw [hr] at h
          cases r' with
          | error p =>
            cases p with
            | mk e0 rest' =>
              dsimp only at h
              injection h with h
              injection h with h1 h2
              subst h1
              subst h2
              obtain ⟨r0, hr1, hr2, hr3⟩ := ih (by rw [hr])
              exact ⟨r0, List.mem_cons_of_mem f hr1, List.mem_cons_of_mem f' hr2, hr3⟩
          | ok rest' => dsimp only at h; simp at h

theorem checkPass_log_mem (u : Oracle) :
    ∀ {l : List FileInfoCache} {i : Nat}, i ∈ (checkPass u l).2 →
      ∃ g ∈ l, g.index = i ∧ g.is_processing = true := by
  intro l
  induction l with
  | nil =>
    intro i h
    simp [checkPass] at h
  | cons f rest ih =>
    intro i h
    have hmemf : i ∈ (checkOne u f).2 → ∃ g ∈ f :: rest, g.index = i ∧ g.is_processing = true := by
      intro hi
      rw [checkOne_log] at hi
      by_cases hp : f.is_processing
      · rw [if_pos hp] at hi
        simp at hi
        exact ⟨f, List.mem_cons_self f rest, by rw [hi], hp⟩
      · rw [if_neg hp] at hi
        simp at hi
    simp only [checkPass] at h
    cases hc : checkOne u f with
    | mk r log =>
      rw [hc] at h
      cases r with
      | error e =>
        dsimp only at h
        exact hmemf (by rw [hc]; exact h)
      | ok f' =>
        dsimp only at h
        cases hr : checkPass u rest with
        | mk r' log' =>
          rw [hr] at h
          cases r' with
          | error p =>
            cases p with
            | mk e rest' =>
              dsimp only at h
              rcases List.mem_append.mp h with h1 | h2
              · exact hmemf (by rw [hc]; exact h1)
              · obtain ⟨g, hg1, hg2⟩ := ih (by rw [hr]; exact h2)
                exact ⟨g, List.mem_cons_of_mem f hg1, hg2⟩
          | ok rest' =>
            dsimp only at h
            rcases List.mem_append.mp h with h1 | h2
            · exact hmemf (by rw [hc]; exact h1)
            · obtain ⟨g, hg1, hg2⟩ := ih (by rw [hr]; exact h2)
              exact ⟨g, List.mem_cons_of_mem f hg1, hg2⟩

theorem checkPass_ok_mem_of_not_processing (u : Oracle) :
    ∀ {l l' : List FileInfoCache} {f0 : FileInfoCache},
      (checkPass u l).1 = Except.ok l' → f0 ∈ l → f0.is_processing = false →
        f0 ∈ l' := by
  intro l
  induction l with
  | nil =>
    intro l' f0 _ hm _
    cases hm
  | cons f rest ih =>
    intro l' f0 h hm hnp
    simp only [checkPass] at h
    cases hc : checkOne u f with
    | mk r log =>
      rw [hc] at h
      cases r with
      | error e => dsimp only at h; simp at h
      | ok f' =>
        dsimp only at h
        cases hr : checkPass u rest with
        | mk r' log' =>
          rw [hr] at h
          cases r' with
          | error p =>
            cases p with
            | mk e rest' => dsimp only at h; simp at h
          | ok rest' =>
            dsimp only at h
            injection h with h
            subst h
            rcases List.mem_cons.mp hm with h1 | h2
            · have heq : (Except.ok f : Except CheckError FileInfoCache) = Except.ok f' := by
                have h3 : checkOne u f0 = (Except.ok f0, []) := checkOne_not_processing u hnp
                rw [h1] at h3
                rw [h3] at hc
                exact congrArg Prod.fst hc
              injection heq with heq
              rw [h1, heq]
              exact List.mem_cons_self f' rest'
            · exact List.mem_cons_of_mem f' (ih (by rw [hr]) h2 hnp)

/-! ### Classification of an updated pending list into remaining, completed
and failed records -/

theorem subperm_map {α β : Type} (g : α → β) {l1 l2 : List α}
    (h : l1.Subperm l2) : (l1.map g).Subperm (l2.map g) := by
  obtain ⟨l0, hp, hs⟩ := h
  exact ⟨l0.map g, hp.map g, hs.map g⟩

theorem classify_perm :
    ∀ l : List FileInfoCache,
      (l.filter (fun f => !f.is_complete && f.is_processing) ++
        (l.filter (fun f => f.is_complete) ++
          l.filter (fun f => !f.is_complete && !f.is_processing))).Perm l := by
  intro l
  induction l with
  | nil => simp
  | cons x l ih =>
    by_cases hc : x.is_complete
    · have hp : x.is_processing = false := complete_not_processing hc
      simp only [List.filter_cons, hc, hp, Bool.not_true, Bool.false_and,
        Bool.and_false, if_false, Bool.not_false, if_true, Bool.false_eq_true,
        Bool.and_self]
      exact List.Perm.trans List.perm_middle (List.Perm.cons x ih)
    · have hc' : x.is_complete = false := by simpa using hc
      by_cases hp : x.is_processing
      · simp only [List.filter_cons, hc', hp, Bool.not_false, Bool.true_and,
          if_true, if_false, Bool.false_eq_true, Bool.not_true, Bool.and_false]
        exact List.Perm.cons x ih
      · have hp' : x.is_processing = false := by simpa using hp
        simp only [List.filter_cons, hc', hp', Bool.not_false, Bool.true_and,
          if_true, if_false, Bool.false_eq_true]
        have h1 : (l.filter (fun f => !f.is_complete && f.is_processing) ++
            (l.filter (fun f => f.is_complete) ++
              x :: l.filter (fun f => !f.is_complete && !f.is_processing))).Perm
            (x :: (l.filter (fun f => !f.is_complete && f.is_processing) ++
              (l.filter (fun f => f.is_complete) ++
                l.filter (fun f => !f.is_complete && !f.is_processing)))) := by
          rw [← List.append_assoc, ← List.append_assoc]
          exact List.perm_middle
        exact List.Perm.trans h1 (List.Perm.cons x ih)

theorem classify_subperm (l : List FileInfoCache) :
    ((l.filter (fun f => !f.is_complete && f.is_processing) ++
      l.filter (fun f => f.is_complete)).map sig).Subperm (l.map sig) := by
  apply subperm_map
  refine List.Subperm.trans ?_ (classify_perm l).subperm
  refine ⟨_, List.Perm.refl _, ?_⟩
  rw [← List.append_assoc]
  exact List.sublist_append_left _ _

/-! ### The check_file_status chain -/

theorem pass_remaining_lt (u : Oracle) {s : FileInfoHolder} {l' : List FileInfoCache}
    (hp : (checkPass u s.files_unprocessed).1 = Except.ok l')
    (hz : (l'.filter (fun f => f.is_complete)).length ≠ 0) :
    (l'.filter (fun f => !f.is_complete && f.is_processing)).length <
      s.files_unprocessed.length := by
  have hlen : l'.length = s.files_unprocessed.length := checkPass_ok_length u hp
  have hex : ∃ x ∈ l', ¬((!x.is_complete && x.is_processing) = true) := by
    have hpos : 0 < (l'.filter (fun f => f.is_complete)).length := Nat.pos_of_ne_zero hz
    obtain ⟨x, hx⟩ := List.exists_mem_of_length_pos hpos
    have hx' := List.mem_filter.mp hx
    exact ⟨x, hx'.1, by simp [hx'.2]⟩
  calc (l'.filter (fun f => !f.is_complete && f.is_processing)).length
      < l'.length := List.length_filter_lt_length_iff_exists.mpr hex
    _ = s.files_unprocessed.length := hlen

theorem pass_state_subperm (u : Oracle) {s : FileInfoHolder} {l' : List FileInfoCache}
    (hp : (checkPass u s.files_unprocessed).1 = Except.ok l') :
    ((recs { files := s.files ++ l'.filter (fun f => f.is_complete),
              files_unprocessed := l'.filter (fun f => !f.is_complete && f.is_processing),
              last_file_index := s.last_file_index }).map sig).Subperm
      ((recs s).map sig) := by
  have hsig : l'.map sig = s.files_unprocessed.map sig := checkPass_ok_sig u hp
  have h1 := classify_subperm l'
  have hperm : (recs { files := s.files ++ l'.filter (fun f => f.is_complete),
                        files_unprocessed := l'.filter (fun f => !f.is_complete && f.is_processing),
                        last_file_index := s.last_file_index }).Perm
      ((l'.filter (fun f => !f.is_complete && f.is_processing) ++
        l'.filter (fun f => f.is_complete)) ++ s.files) := by
    simp only [recs]
    rw [List.append_assoc]
    exact List.Perm.append_left _ List.perm_append_comm
  have h2 : ((l'.filter (fun f => !f.is_complete && f.is_processing) ++
        l'.filter (fun f => f.is_complete)).map sig ++ s.files.map sig).Subperm
      (l'.map sig ++ s.files.map sig) := (List.subperm_append_right _).mpr h1
  have h3 := (hperm.map sig).subperm
  rw [List.map_append] at h3
  have h4 := h3.trans h2
  rw [hsig] at h4
  simpa [recs, List.map_append] using h4

theorem chainAux_isSome (u : Oracle) :
    ∀ (fuel : Nat) (s : FileInfoHolder), s.files_unprocessed.length < fuel →
      (checkChainAux u fuel s).isSome = true := by
  intro fuel
  induction fuel with
  | zero => intro s h; exact absurd h (Nat.not_lt_zero _)
  | succ fuel ih =>
    intro s h
    rw [checkChainAux]
    cases hp : (checkPass u s.files_unprocessed).1 with
    | error p =>
      cases p with
      | mk e l' => simp
    | ok l' =>
      dsimp only
      by_cases hz : (l'.filter (fun f => f.is_complete)).length = 0
      · simp [hz]
      · rw [if_neg hz]
        have hfuel : (l'.filter (fun f => !f.is_complete && f.is_processing)).length < fuel := by
          have := pass_remaining_lt u hp hz
          omega
        have hsome := ih { files := s.files ++ l'.filter (fun f => f.is_complete),
                            files_unprocessed :=
                              l'.filter (fun f => !f.is_complete && f.is_processing),
                            last_file_index := s.last_file_index } hfuel
        cases haux : checkChainAux u fuel
            { files := s.files ++ l'.filter (fun f => f.is_complete),
              files_unprocessed := l'.filter (fun f => !f.is_complete && f.is_processing),
              last_file_index := s.last_file_index } with
        | none => rw [haux] at hsome; simp at hsome
        | some val =>
          obtain ⟨s'', ps, e⟩ := val
          simp

theorem chainAux_master (u : Oracle) :
    ∀ (fuel : Nat) (s : FileInfoHolder) (r : FileInfoHolder × List Nat × Option CheckError),
      checkChainAux u fuel s = some r →
        r.1.last_file_index = s.last_file_index ∧
        (∀ g ∈ s.files, g ∈ r.1.files) ∧
        ((recs r.1).map sig).Subperm ((recs s).map sig) ∧
        (∃ ps0, r.2.1 = ps0 ++ [0] ∧ ∀ n ∈ ps0, 1 ≤ n) := by
  intro fuel
  induction fuel with
  | zero => intro s r h; cases h
  | succ fuel ih =>
    intro s r h
    rw [checkChainAux] at h
    cases hp : (checkPass u s.files_unprocessed).1 with
    | error p =>
      cases p with
      | mk e l' =>
        rw [hp] at h
        dsimp only at h
        injection h with h
        subst h
        refine ⟨rfl, fun g hg => hg, ?_, [], rfl, by intro n hn; cases hn⟩
        have hsig : l'.map sig = s.files_unprocessed.map sig := checkPass_err_sig u hp
        simp only [recs, List.map_append, hsig]
        exact List.Subperm.refl _
    | ok l' =>
      rw [hp] at h
      dsimp only at h
      by_cases hz : (l'.filter (fun f => f.is_complete)).length = 0
      · rw [if_pos hz] at h
        injection h with h
        subst h
        refine ⟨rfl, ?_, ?_, [], rfl, by intro n hn; cases hn⟩
        · intro g hg
          exact List.mem_append_left _ hg
        · exact pass_state_subperm u hp
      · rw [if_neg hz] at h
        cases haux : checkChainAux u fuel
            { files := s.files ++ l'.filter (fun f => f.is_complete),
              files_unprocessed := l'.filter (fun f => !f.is_complete && f.is_processing),
              last_file_index := s.last_file_index } with
        | none => rw [haux] at h; cases h
        | some val =>
          obtain ⟨s'', ps, e⟩ := val
          rw [haux] at h
          dsimp only at h
          injection h with h
          subst h
          obtain ⟨ihc, ihm, ihs, ps0, hps, hps1⟩ := ih _ _ haux
          refine ⟨ihc, ?_, ?_, ?_⟩
          · intro g hg
            exact ihm g (List.mem_append_left _ hg)
          · exact ihs.trans (pass_state_subperm u hp)
          · refine ⟨(l'.filter (fun f => f.is_complete)).length :: ps0, ?_, ?_⟩
            · have hps' : ps = ps0 ++ [0] := by simpa using hps
              simp [hps']
            · intro n hn
              rcases List.mem_cons.mp hn with h1 | h2
              · subst h1
                exact Nat.one_le_iff_ne_zero.mpr hz
              · exact hps1 n h2

theorem chainAux_absent_index (u : Oracle) (fuel : Nat) (s : FileInfoHolder)
    (r : FileInfoHolder × List Nat × Option CheckError) (i : Nat)
    (h : checkChainAux u fuel s = some r)
    (habs : ∀ g ∈ recs s, g.index ≠ i) :
    ∀ g ∈ recs r.1, g.index ≠ i := by
  intro g hg
  have hsub := (chainAux_master u fuel s r h).2.2.1
  have hmem : sig g ∈ (recs s).map sig := hsub.subset (List.mem_map_of_mem sig hg)
  obtain ⟨g0, hg0, hsg⟩ := List.mem_map.mp hmem
  have : g0.index = g.index := congrArg Prod.fst hsg
  rw [← this]
  exact habs g0 hg0

theorem check_file_status_eq_chainAux (u : Oracle) (s : FileInfoHolder) :
    checkChainAux u (s.files_unprocessed.length + 1) s = some (check_file_status u s) := by
  have hsome := chainAux_isSome u (s.files_unprocessed.length + 1) s (Nat.lt_succ_self _)
  cases haux : checkChainAux u (s.files_unprocessed.length + 1) s with
  | none => rw [haux] at hsome; cases hsome
  | some r => rw [check_file_status, haux]; rfl

/-! ### The listing poller -/

theorem poll_ok_spec (u : Oracle) (s : FileInfoHolder) (es : List Entry)
    (h : u s.last_file_index 5 = UResp.ok es) :
    poll_for_new_files u s = Except.ok
      ({ files := s.files,
         files_unprocessed := s.files_unprocessed ++ es.enum.map (fun p =>
           FileInfoCache.mk (s.last_file_index + p.1) p.2.fileId p.2.processingStatus),
         last_file_index := s.last_file_index + es.length }, es.length == 0) := by
  rw [poll_for_new_files, fetch_files_info, h]

theorem enum_records_getElem? (c : Nat) (es : List Entry) (j : Nat) :
    (es.enum.map (fun p =>
      FileInfoCache.mk (c + p.1) p.2.fileId p.2.processingStatus))[j]? =
      es[j]?.map (fun e => FileInfoCache.mk (c + j) e.fileId e.processingStatus) := by
  rw [List.getElem?_map, List.getElem?_enum]
  cases es[j]? <;> rfl

theorem enum_records_map_index (c : Nat) (es : List Entry) :
    ((es.enum.map (fun p =>
      FileInfoCache.mk (c + p.1) p.2.fileId p.2.processingStatus)).map
        (fun r => r.index)) = List.range' c es.length := by
  apply List.ext_getElem?
  intro j
  rw [List.getElem?_map, enum_records_getElem?]
  by_cases hj : j < es.length
  · rw [List.getElem?_eq_getElem hj, List.getElem?_range' c 1 hj]
    simp
  · have h1 : es[j]? = none := List.getElem?_eq_none (Nat.le_of_not_lt hj)
    have h2 : (List.range' c es.length)[j]? = none := by
      apply List.getElem?_eq_none
      rw [List.length_range']
      exact Nat.le_of_not_lt hj
    rw [h1, h2]
    rfl

theorem enum_records_map_status (c : Nat) (es : List Entry) :
    ((es.enum.map (fun p =>
      FileInfoCache.mk (c + p.1) p.2.fileId p.2.processingStatus)).map
        (fun r => r.status)) = es.map (fun e => e.processingStatus) := by
  apply List.ext_getElem?
  intro j
  rw [List.getElem?_map, enum_records_getElem?, List.getElem?_map]
  cases es[j]? <;> rfl

theorem enum_records_map_file_id (c : Nat) (es : List Entry) :
    ((es.enum.map (fun p =>
      FileInfoCache.mk (c + p.1) p.2.fileId p.2.processingStatus)).map
        (fun r => r.file_id)) = es.map (fun e => e.fileId) := by
  apply List.ext_getElem?
  intro j
  rw [List.getElem?_map, enum_records_getElem?, List.getElem?_map]
  cases es[j]? <;> rfl

theorem enum_records_mem {c : Nat} {es : List Entry} {r : FileInfoCache}
    (h : r ∈ es.enum.map (fun p =>
      FileInfoCache.mk (c + p.1) p.2.fileId p.2.processingStatus)) :
    ∃ j e, es[j]? = some e ∧ j < es.length ∧
      r = FileInfoCache.mk (c + j) e.fileId e.processingStatus := by
  obtain ⟨j, hj⟩ := List.mem_iff_getElem?.mp h
  rw [enum_records_getElem?] at hj
  cases he : es[j]? with
  | none => rw [he] at hj; cases hj
  | some e =>
    rw [he] at hj
    injection hj with hj
    obtain ⟨hlt, _⟩ := List.getElem?_eq_some.mp he
    exact ⟨j, e, he, hlt, hj.symm⟩

theorem poll_apply_page_spec (page : List Entry) (s : FileInfoHolder) :
    poll_apply_page page s =
      { files := s.files,
        files_unprocessed := s.files_unprocessed ++ page.enum.map (fun p =>
          FileInfoCache.mk (s.last_file_index + p.1) p.2.fileId p.2.processingStatus),
        last_file_index := s.last_file_index + page.length } := by
  rw [poll_apply_page, poll_ok_spec (fun _ _ => UResp.ok page) s page rfl]

theorem poll_pages_spec :
    ∀ (pages : List (List Entry)) (s : FileInfoHolder), ∃ created,
      (poll_pages pages s).files = s.files ∧
      (poll_pages pages s).files_unprocessed = s.files_unprocessed ++ created ∧
      created.map (fun r => r.index) =
        List.range' s.last_file_index ((pages.map List.length).sum) ∧
      (poll_pages pages s).last_file_index =
        s.last_file_index + (pages.map List.length).sum := by
  intro pages
  induction pages with
  | nil =>
    intro s
    exact ⟨[], rfl, (List.append_nil _).symm, by simp, by simp [poll_pages]⟩
  | cons page pages ih =>
    intro s
    have hstep : poll_pages (page :: pages) s = poll_pages pages (poll_apply_page page s) := rfl
    obtain ⟨created, h1, h2, h3, h4⟩ := ih (poll_apply_page page s)
    refine ⟨page.enum.map (fun p =>
      FileInfoCache.mk (s.last_file_index + p.1) p.2.fileId p.2.processingStatus) ++ created,
      ?_, ?_, ?_, ?_⟩
    · rw [hstep, h1, poll_apply_page_spec]
    · rw [hstep, h2, poll_apply_page_spec]
      simp [List.append_assoc]
    · rw [List.map_append, enum_records_map_index]
      rw [poll_apply_page_spec] at h3
      dsimp only at h3
      rw [h3]
      have := List.range'_append s.last_file_index page.length
        ((pages.map List.length).sum) 1
      simp only [Nat.one_mul] at this
      rw [this]
      simp [Nat.add_comm]
    · rw [hstep, h4, poll_apply_page_spec]
      dsimp only
      simp [Nat.add_assoc]

/-! ### One poll_event_loop iteration, by upstream response -/

theorem poll_event_iter_err (u : Oracle) (s : FileInfoHolder)
    (h : u s.last_file_index 5 = UResp.err) : poll_event_iter u s = (s, 0) := by
  rw [poll_event_iter, poll_for_new_files, fetch_files_info, h]

theorem poll_event_iter_notOk (u : Oracle) (s : FileInfoHolder)
    (h : u s.last_file_index 5 = UResp.notOk) : poll_event_iter u s = (s, 5) := by
  rw [poll_event_iter, poll_for_new_files, fetch_files_info, h]
  simp

theorem poll_event_iter_ok (u : Oracle) (s : FileInfoHolder) (es : List Entry)
    (h : u s.last_file_index 5 = UResp.ok es) :
    poll_event_iter u s =
      ({ files := s.files,
         files_unprocessed := s.files_unprocessed ++ es.enum.map (fun p =>
           FileInfoCache.mk (s.last_file_index + p.1) p.2.fileId p.2.processingStatus),
         last_file_index := s.last_file_index + es.length },
       if es.length = 0 then 5 else 0) := by
  rw [poll_event_iter, poll_ok_spec u s es h]
  dsimp only
  by_cases hz : es.length = 0 <;> simp [hz]

/-! ### Helpers relating signatures and indices -/

theorem subperm_nodup {α : Type} {l1 l2 : List α}
    (h : l1.Subperm l2) (hn : l2.Nodup) : l1.Nodup := by
  obtain ⟨l0, hp, hs⟩ := h
  exact hp.nodup_iff.mp (hs.nodup hn)

theorem idxs_eq_sig_fst (t : FileInfoHolder) :
    idxs t = ((recs t).map sig).map Prod.fst := by
  rw [List.map_map]
  rfl

theorem sig_sub_mem {t s' : FileInfoHolder}
    (h : ((recs t).map sig).Subperm ((recs s').map sig))
    {g : FileInfoCache} (hg : g ∈ recs t) :
    ∃ g0 ∈ recs s', g0.index = g.index ∧ g0.file_id = g.file_id := by
  have hmem : sig g ∈ (recs s').map sig := h.subset (List.mem_map_of_mem sig hg)
  obtain ⟨g0, hg0, hsg⟩ := List.mem_map.mp hmem
  exact ⟨g0, hg0, congrArg Prod.fst hsg, congrArg Prod.snd hsg⟩

/-! ### The cache invariant is established and preserved -/

theorem cacheInv_init (fid : Nat → String) : CacheInv fid initState := by
  refine ⟨?_, ?_, ?_⟩ <;> simp [CacheInv, idxs, recs, initState]

theorem cacheInv_poll (fid : Nat → String) (u : Oracle) (s : FileInfoHolder)
    (hu : ValidListing fid u) (hinv : CacheInv fid s) :
    CacheInv fid (poll_event_iter u s).1 := by
  obtain ⟨hnd, hbound, hfid⟩ := hinv
  cases hresp : u s.last_file_index 5 with
  | err => rw [poll_event_iter_err u s hresp]; exact ⟨hnd, hbound, hfid⟩
  | notOk => rw [poll_event_iter_notOk u s hresp]; exact ⟨hnd, hbound, hfid⟩
  | ok es =>
    rw [poll_event_iter_ok u s es hresp]
    dsimp only
    have hnew : ∀ r ∈ es.enum.map (fun p =>
        FileInfoCache.mk (s.last_file_index + p.1) p.2.fileId p.2.processingStatus),
        s.last_file_index ≤ r.index ∧ r.index < s.last_file_index + es.length ∧
          r.file_id = fid r.index := by
      intro r hr
      obtain ⟨j, e, he, hj, hre⟩ := enum_records_mem hr
      subst hre
      refine ⟨Nat.le_add_right _ _, by simpa using hj, ?_⟩
      exact hu s.last_file_index 5 es j e hresp he
    have hpermr : (recs { files := s.files,
                          files_unprocessed := s.files_unprocessed ++ es.enum.map (fun p =>
                            FileInfoCache.mk (s.last_file_index + p.1) p.2.fileId p.2.processingStatus),
                          last_file_index := s.last_file_index + es.length }).Perm
        (recs s ++ es.enum.map (fun p =>
          FileInfoCache.mk (s.last_file_index + p.1) p.2.fileId p.2.processingStatus)) := by
      simp only [recs]
      rw [List.append_assoc, List.append_assoc]
      exact List.Perm.append_left _ List.perm_append_comm
    refine ⟨?_, ?_, ?_⟩
    · rw [idxs]
      rw [(hpermr.map (fun r => r.index)).nodup_iff]
      rw [List.map_append, List.nodup_append]
      refine ⟨hnd, ?_, ?_⟩
      · rw [enum_records_map_index]
        exact List.nodup_range' _ _
      · intro a ha hb
        rw [enum_records_map_index] at hb
        obtain ⟨r0, hr0, hr0e⟩ := List.mem_map.mp ha
        have h1 : a < s.last_file_index := by
          rw [← hr0e]
          exact hbound r0 hr0
        have h2 := (List.mem_range'_1.mp hb).1
        omega
    · intro r hr
      have := (hpermr.mem_iff).mp hr
      rcases List.mem_append.mp this with h1 | h2
      · have h3 := hbound r h1
        show r.index < s.last_file_index + es.length
        omega
      · exact (hnew r h2).2.1
    · intro r hr
      have := (hpermr.mem_iff).mp hr
      rcases List.mem_append.mp this with h1 | h2
      · exact hfid r h1
      · exact (hnew r h2).2.2

theorem cacheInv_check (fid : Nat → String) (u : Oracle) (s : FileInfoHolder)
    (hinv : CacheInv fid s) : CacheInv fid (check_file_status u s).1 := by
  obtain ⟨hnd, hbound, hfid⟩ := hinv
  obtain ⟨hcur, _, hsub, _⟩ :=
    chainAux_master u (s.files_unprocessed.length + 1) s _ (check_file_status_eq_chainAux u s)
  refine ⟨?_, ?_, ?_⟩
  · rw [idxs_eq_sig_fst]
    refine subperm_nodup (subperm_map Prod.fst hsub) ?_
    rw [← idxs_eq_sig_fst]
    exact hnd
  · intro r hr
    obtain ⟨g0, hg0, hgi, _⟩ := sig_sub_mem hsub hr
    rw [hcur, ← hgi]
    exact hbound g0 hg0
  · intro r hr
    obtain ⟨g0, hg0, hgi, hgf⟩ := sig_sub_mem hsub hr
    rw [← hgf, ← hgi]
    exact hfid g0 hg0

theorem step_cacheInv {fid : Nat → String} {s t : FileInfoHolder}
    (hst : Step fid s t) (hinv : CacheInv fid s) : CacheInv fid t := by
  cases hst with
  | poll u s hu => exact cacheInv_poll fid u s hu hinv
  | check u s => exact cacheInv_check fid u s hinv

theorem reachable_cacheInv {fid : Nat → String} {s : FileInfoHolder}
    (h : Reachable fid s) : CacheInv fid s := by
  induction h with
  | refl => exact cacheInv_init fid
  | tail hab hbc ih => exact step_cacheInv hbc ih

/-! ### Monotonicity along transitions -/

theorem check_state_files_mono (u : Oracle) (s : FileInfoHolder) :
    ∀ g ∈ s.files, g ∈ (check_file_status u s).1.files :=
  (chainAux_master u (s.files_unprocessed.length + 1) s _
    (check_file_status_eq_chainAux u s)).2.1

theorem check_state_cursor (u : Oracle) (s : FileInfoHolder) :
    (check_file_status u s).1.last_file_index = s.last_file_index :=
  (chainAux_master u (s.files_unprocessed.length + 1) s _
    (check_file_status_eq_chainAux u s)).1

theorem check_state_absent (u : Oracle) (s : FileInfoHolder) (i : Nat)
    (habs : ∀ g ∈ recs s, g.index ≠ i) :
    ∀ g ∈ recs (check_file_status u s).1, g.index ≠ i :=
  chainAux_absent_index u (s.files_unprocessed.length + 1) s _ i
    (check_file_status_eq_chainAux u s) habs

theorem poll_ok_recs_perm (s : FileInfoHolder) (es : List Entry) :
    (recs { files := s.files,
            files_unprocessed := s.files_unprocessed ++ es.enum.map (fun p =>
              FileInfoCache.mk (s.last_file_index + p.1) p.2.fileId p.2.processingStatus),
            last_file_index := s.last_file_index + es.length }).Perm
      (recs s ++ es.enum.map (fun p =>
        FileInfoCache.mk (s.last_file_index + p.1) p.2.fileId p.2.processingStatus)) := by
  simp only [recs]
  rw [List.append_assoc, List.append_assoc]
  exact List.Perm.append_left _ List.perm_append_comm

theorem step_files_mono {fid : Nat → String} {s t : FileInfoHolder}
    (h : Step fid s t) : ∀ g ∈ s.files, g ∈ t.files := by
  cases h with
  | poll u hu =>
    cases hresp : u s.last_file_index 5 with
    | err => rw [poll_event_iter_err u s hresp]; exact fun g hg => hg
    | notOk => rw [poll_event_iter_notOk u s hresp]; exact fun g hg => hg
    | ok es => rw [poll_event_iter_ok u s es hresp]; exact fun g hg => hg
  | check u => exact check_state_files_mono u s

theorem step_absent {fid : Nat → String} {s t : FileInfoHolder} {i : Nat}
    (h : Step fid s t) (hcur : i < s.last_file_index)
    (habs : ∀ g ∈ recs s, g.index ≠ i) :
    i < t.last_file_index ∧ ∀ g ∈ recs t, g.index ≠ i := by
  cases h with
  | poll u hu =>
    cases hresp : u s.last_file_index 5 with
    | err => rw [poll_event_iter_err u s hresp]; exact ⟨hcur, habs⟩
    | notOk => rw [poll_event_iter_notOk u s hresp]; exact ⟨hcur, habs⟩
    | ok es =>
      rw [poll_event_iter_ok u s es hresp]
      dsimp only
      constructor
      · show i < s.last_file_index + es.length
        omega
      · intro g hg
        have hmem := ((poll_ok_recs_perm s es).mem_iff).mp hg
        rcases List.mem_append.mp hmem with h1 | h2
        · exact habs g h1
        · obtain ⟨j, e, he, hj, hre⟩ := enum_records_mem h2
          subst hre
          dsimp only
          omega
  | check u =>
    rw [check_state_cursor u s]
    exact ⟨hcur, check_state_absent u s i habs⟩

theorem rtg_absent {fid : Nat → String} {s t : FileInfoHolder} {i : Nat}
    (h : Relation.ReflTransGen (Step fid) s t) (hcur : i < s.last_file_index)
    (habs : ∀ g ∈ recs s, g.index ≠ i) :
    ∀ g ∈ recs t, g.index ≠ i := by
  have hconj : i < t.last_file_index ∧ ∀ g ∈ recs t, g.index ≠ i := by
    induction h with
    | refl => exact ⟨hcur, habs⟩
    | tail hab hbc ih => exact step_absent hbc ih.1 ih.2
  exact hconj.2

theorem rtg_files_mono {fid : Nat → String} {s t : FileInfoHolder}
    (h : Relation.ReflTransGen (Step fid) s t) :
    ∀ g ∈ s.files, g ∈ t.files := by
  induction h with
  | refl => exact fun g hg => hg
  | tail hab hbc ih => exact fun g hg => step_files_mono hbc g (ih g hg)

/-! ### Relating the first completed pass to the final checker state -/

theorem check_first_pass_state (u : Oracle) (s : FileInfoHolder)
    {l' : List FileInfoCache}
    (hp : (checkPass u s.files_unprocessed).1 = Except.ok l') :
    (∀ g ∈ s.files ++ l'.filter (fun f => f.is_complete),
        g ∈ (check_file_status u s).1.files) ∧
    (∀ i : Nat,
      (∀ g ∈ recs { files := s.files ++ l'.filter (fun f => f.is_complete),
                    files_unprocessed :=
                      l'.filter (fun f => !f.is_complete && f.is_processing),
                    last_file_index := s.last_file_index }, g.index ≠ i) →
        ∀ g ∈ recs (check_file_status u s).1, g.index ≠ i) := by
  have heq := check_file_status_eq_chainAux u s
  rw [checkChainAux] at heq
  rw [hp] at heq
  dsimp only at heq
  by_cases hz : (l'.filter (fun f => f.is_complete)).length = 0
  · rw [if_pos hz] at heq
    injection heq with heq
    constructor
    · intro g hg
      rw [← heq]
      exact hg
    · intro i habs g hg
      rw [← heq] at hg
      exact habs g hg
  · rw [if_neg hz] at heq
    cases haux : checkChainAux u s.files_unprocessed.length
        { files := s.files ++ l'.filter (fun f => f.is_complete),
          files_unprocessed := l'.filter (fun f => !f.is_complete && f.is_processing),
          last_file_index := s.last_file_index } with
    | none => rw [haux] at heq; cases heq
    | some val =>
      obtain ⟨s'', ps, e⟩ := val
      rw [haux] at heq
      dsimp only at heq
      injection heq with heq
      have hs1 : (check_file_status u s).1 = s'' := by
        rw [← heq]
      constructor
      · intro g hg
        rw [hs1]
        exact (chainAux_master u s.files_unprocessed.length _ _ haux).2.1 g hg
      · intro i habs g hg
        rw [hs1] at hg
        exact chainAux_absent_index u s.files_unprocessed.length _ _ i haux habs g hg

/-! ### The claims -/

/-- C1: for every file_id, the lookup endpoint answers 404 with the
File-info-not-found body and issues no upstream read when the file_id is
absent from completed; when present it invokes the detail aggregator and
returns its merged payload with status 200, and an aggregation failure
surfaces as a server error, never as a 404. -/
theorem c1_lookup (s : FileInfoHolder) (det : String → Option (List (String × DVal)))
    (seg : String → Option (List String)) (file_id : String) :
    ((∀ r ∈ s.files, r.file_id ≠ file_id) →
      get_file s det seg file_id = (Resp.notFound, [])) ∧
    ((∃ r ∈ s.files, r.file_id = file_id) →
      (get_file s det seg file_id).1 ≠ Resp.notFound ∧
      (∀ d, (fetch_and_combine_file_info det seg file_id).1 = some d →
        get_file s det seg file_id =
          (Resp.ok d, (fetch_and_combine_file_info det seg file_id).2)) ∧
      ((fetch_and_combine_file_info det seg file_id).1 = none →
        get_file s det seg file_id =
          (Resp.serverError, (fetch_and_combine_file_info det seg file_id).2))) := by
  constructor
  · intro habs
    have hfind : s.files.find? (fun x => x.file_id == file_id) = none := by
      rw [List.find?_eq_none]
      intro x hx
      simpa using habs x hx
    rw [get_file, hfind]
  · rintro ⟨r, hr, hre⟩
    have hsome : (s.files.find? (fun x => x.file_id == file_id)).isSome = true :=
      List.find?_isSome.mpr ⟨r, hr, by simp [hre]⟩
    obtain ⟨r0, hr0⟩ := Option.isSome_iff_exists.mp hsome
    cases hagg : fetch_and_combine_file_info det seg file_id with
    | mk res log =>
      cases res with
      | none =>
        refine ⟨?_, ?_, ?_⟩
        · rw [get_file, hr0, hagg]
          dsimp only
          intro hcon
          cases hcon
        · intro d hd
          dsimp only at hd
          cases hd
        · intro _
          rw [get_file, hr0, hagg]
      | some d0 =>
        refine ⟨?_, ?_, ?_⟩
        · rw [get_file, hr0, hagg]
          dsimp only
          intro hcon
          cases hcon
        · intro d hd
          dsimp only at hd
          injection hd with hd
          subst hd
          rw [get_file, hr0, hagg]
        · intro hd
          dsimp only at hd
          cases hd

/-- Witness for c1_lookup: one completed record with id a; looking up b
answers 404 with no upstream read, looking up a answers 200 with the
merged detail-plus-segments object. -/
theorem c1_lookup_witness :
    get_file (FileInfoHolder.mk [FileInfoCache.mk 0 "a" "FINISHED"] [] 1)
      (fun _ => some [("name", DVal.atom "n")])
      (fun _ => some ["s1"]) "b" = (Resp.notFound, []) ∧
    get_file (FileInfoHolder.mk [FileInfoCache.mk 0 "a" "FINISHED"] [] 1)
      (fun _ => some [("name", DVal.atom "n")])
      (fun _ => some ["s1"]) "a" =
      (Resp.ok [("name", DVal.atom "n"), ("segments", DVal.segArr ["s1"])],
       [ReadEv.detail "a", ReadEv.segments "a"]) := by
  constructor
  · exact (c1_lookup (FileInfoHolder.mk [FileInfoCache.mk 0 "a" "FINISHED"] [] 1)
      (fun _ => some [("name", DVal.atom "n")]) (fun _ => some ["s1"]) "b").1 (by decide)
  · exact ((c1_lookup (FileInfoHolder.mk [FileInfoCache.mk 0 "a" "FINISHED"] [] 1)
      (fun _ => some [("name", DVal.atom "n")]) (fun _ => some ["s1"]) "a").2
      ⟨FileInfoCache.mk 0 "a" "FINISHED", by decide, rfl⟩).2.1
      [("name", DVal.atom "n"), ("segments", DVal.segArr ["s1"])] rfl

/-- C2: across any sequence of returned listing pages, the created
pending records carry exactly the indices cursor, cursor+1, ... in
order; from a fresh state the index set is exactly 0..total-1 with no
gaps or duplicates, whatever the page sizes; and each page advances the
cursor by exactly the number of entries returned. -/
theorem c2_poll_indices (pages : List (List Entry)) (s : FileInfoHolder) :
    (∃ created,
      (poll_pages pages s).files_unprocessed = s.files_unprocessed ++ created ∧
      created.map (fun r => r.index) =
        List.range' s.last_file_index ((pages.map List.length).sum) ∧
      (poll_pages pages s).last_file_index =
        s.last_file_index + (pages.map List.length).sum) ∧
    ((poll_pages pages initState).files_unprocessed.map (fun r => r.index) =
      List.range ((pages.map List.length).sum)) ∧
    (∀ page : List Entry, ∀ t : FileInfoHolder,
      (poll_apply_page page t).last_file_index = t.last_file_index + page.length) := by
  refine ⟨?_, ?_, ?_⟩
  · obtain ⟨created, _, h2, h3, h4⟩ := poll_pages_spec pages s
    exact ⟨created, h2, h3, h4⟩
  · obtain ⟨created, _, h2, h3, _⟩ := poll_pages_spec pages initState
    have h5 : (poll_pages pages initState).files_unprocessed = created := by
      rw [h2]
      rfl
    rw [h5, h3, List.range_eq_range']
    rfl
  · intro page t
    rw [poll_apply_page_spec]

/-- C8 as stated is false: a transport error on the listing call is not
treated as an empty page.  The fetch raises (it does not return []),
and the raised exception skips the backoff sleep entirely (the poller
sleeps 0, not 5, before retrying). -/
theorem c8_cex :
    fetch_files_info (fun _ _ => UResp.err) 0 5 ≠ Except.ok ([] : List Entry) ∧
    poll_event_iter (fun _ _ => UResp.err) initState ≠ (initState, 5) := by
  constructor
  · intro h
    rw [fetch_files_info] at h
    cases h
  · intro h
    rw [poll_event_iter_err (fun _ _ => UResp.err) initState rfl] at h
    have := congrArg Prod.snd h
    simp at this

/-- C8 amended: a non-2xx listing response is treated exactly as an
empty page (the fetch returns [], the cursor does not advance, no
record is created, and the 5-unit backoff applies); a transport error
likewise advances nothing and creates nothing, but its exception skips
the backoff and the poller retries immediately; for a successfully
returned page, the poller sleeps the 5-unit backoff if and only if the
page is empty, and requests the next page with no delay when it is
non-empty. -/
theorem c8_amended (u : Oracle) (s : FileInfoHolder) :
    (u s.last_file_index 5 = UResp.notOk →
      fetch_files_info u s.last_file_index 5 = Except.ok [] ∧
      poll_event_iter u s = (s, 5)) ∧
    (u s.last_file_index 5 = UResp.err →
      poll_event_iter u s = (s, 0)) ∧
    (∀ es, u s.last_file_index 5 = UResp.ok es →
      (poll_event_iter u s).2 = (if es.isEmpty then 5 else 0) ∧
      (poll_event_iter u s).1.last_file_index = s.last_file_index + es.length ∧
      (es.isEmpty = true → (poll_event_iter u s).1 = s)) := by
  refine ⟨?_, ?_, ?_⟩
  · intro h
    constructor
    · rw [fetch_files_info, h]
    · exact poll_event_iter_notOk u s h
  · intro h
    exact poll_event_iter_err u s h
  · intro es h
    rw [poll_event_iter_ok u s es h]
    refine ⟨?_, rfl, ?_⟩
    · by_cases hz : es = [] <;> simp [hz]
    · intro he
      rw [List.isEmpty_iff] at he
      subst he
      simp

/-- Witness for c8_amended: a non-2xx response yields an empty fetch
result and a 5-unit backoff; a transport error yields no backoff; a
successful non-empty page yields no backoff. -/
theorem c8_amended_witness :
    (fetch_files_info (fun _ _ => UResp.notOk) 0 5 = Except.ok [] ∧
     poll_event_iter (fun _ _ => UResp.notOk) initState = (initState, 5)) ∧
    poll_event_iter (fun _ _ => UResp.err) initState = (initState, 0) ∧
    (poll_event_iter (fun _ _ => UResp.ok [Entry.mk "a" "PROCESSING"]) initState).2 = 0 := by
  refine ⟨?_, ?_, ?_⟩
  · exact (c8_amended (fun _ _ => UResp.notOk) initState).1 rfl
  · exact (c8_amended (fun _ _ => UResp.err) initState).2.1 rfl
  · have h := ((c8_amended (fun _ _ => UResp.ok [Entry.mk "a" "PROCESSING"])
      initState).2.2 [Entry.mk "a" "PROCESSING"] rfl).1
    simpa using h

/-- C7: the detail aggregator issues exactly the detail read followed by
the segment read, and on success returns the upstream detail object
with its segments key set to the upstream segment list; a failing
response on either read is a hard failure for the request (no result,
no retry: the failing read is issued once and nothing further). -/
theorem c7_aggregator (det : String → Option (List (String × DVal)))
    (seg : String → Option (List String)) (file_id : String) :
    (∀ d ss, det file_id = some d → seg file_id = some ss →
      fetch_and_combine_file_info det seg file_id =
        (some (setKey d "segments" (DVal.segArr ss)),
         [ReadEv.detail file_id, ReadEv.segments file_id])) ∧
    (det file_id = none →
      fetch_and_combine_file_info det seg file_id = (none, [ReadEv.detail file_id])) ∧
    (∀ d, det file_id = some d → seg file_id = none →
      fetch_and_combine_file_info det seg file_id =
        (none, [ReadEv.detail file_id, ReadEv.segments file_id])) := by
  refine ⟨?_, ?_, ?_⟩
  · intro d ss h1 h2
    rw [fetch_and_combine_file_info, h1]
    dsimp only
    rw [h2]
  · intro h1
    rw [fetch_and_combine_file_info, h1]
  · intro d h1 h2
    rw [fetch_and_combine_file_info, h1]
    dsimp only
    rw [h2]

/-- Witness for c7_aggregator: all three cases at concrete oracles. -/
theorem c7_aggregator_witness :
    fetch_and_combine_file_info (fun _ => some [("k", DVal.atom "v")])
      (fun _ => some ["s"]) "a" =
      (some [("k", DVal.atom "v"), ("segments", DVal.segArr ["s"])],
       [ReadEv.detail "a", ReadEv.segments "a"]) ∧
    fetch_and_combine_file_info (fun _ => none) (fun _ => some ["s"]) "a" =
      (none, [ReadEv.detail "a"]) ∧
    fetch_and_combine_file_info (fun _ => some [("k", DVal.atom "v")])
      (fun _ => none) "a" =
      (none, [ReadEv.detail "a", ReadEv.segments "a"]) := by
  refine ⟨?_, ?_, ?_⟩
  · exact (c7_aggregator (fun _ => some [("k", DVal.atom "v")])
      (fun _ => some ["s"]) "a").1 [("k", DVal.atom "v")] ["s"] rfl rfl
  · exact (c7_aggregator (fun _ => none) (fun _ => some ["s"]) "a").2.1 rfl
  · exact (c7_aggregator (fun _ => some [("k", DVal.atom "v")])
      (fun _ => none) "a").2.2 [("k", DVal.atom "v")] rfl rfl

/-! ### Aborted passes -/

theorem check_file_status_err (u : Oracle) (s : FileInfoHolder)
    {e : CheckError} {l' : List FileInfoCache}
    (h1 : (checkPass u s.files_unprocessed).1 = Except.error (e, l')) :
    check_file_status u s =
      (FileInfoHolder.mk s.files l' s.last_file_index, [0], some e) := by
  have heq := check_file_status_eq_chainAux u s
  rw [checkChainAux] at heq
  rw [h1] at heq
  dsimp only at heq
  injection heq with heq
  exact heq.symm

/-- C4: a fileId mismatch observed at index i aborts the pass with the
ValueError: nothing is promoted to completed, nothing is removed from
pending (every position keeps its index and file id, so in particular
records not yet visited are untouched), the mismatched record itself
stays in pending completely unchanged and still in-progress, and the
error is caught at the loop boundary: the iteration ends with the
single aborted pass followed by the interval sleep, and the loop
survives holding the kept state. -/
theorem c4_mismatch (u : Oracle) (s : FileInfoHolder) (i : Nat)
    (l' : List FileInfoCache) (log : List Nat)
    (h : checkPass u s.files_unprocessed =
      (Except.error (CheckError.valueError i, l'), log)) :
    check_file_status u s =
      (FileInfoHolder.mk s.files l' s.last_file_index, [0],
        some (CheckError.valueError i)) ∧
    l'.map sig = s.files_unprocessed.map sig ∧
    (∃ r, r ∈ s.files_unprocessed ∧ r ∈ l' ∧ r.index = i ∧
      r.is_processing = true) ∧
    check_iter_trace u s = [Ev.passEv 0, Ev.sleepEv] ∧
    check_event_iter u s = FileInfoHolder.mk s.files l' s.last_file_index := by
  have h1 : (checkPass u s.files_unprocessed).1 =
      Except.error (CheckError.valueError i, l') := by rw [h]
  have hmain := check_file_status_err u s h1
  refine ⟨hmain, checkPass_err_sig u h1, ?_, ?_, ?_⟩
  · obtain ⟨r, hr1, hr2, hr3⟩ := checkPass_err_mem u h1
    exact ⟨r, hr1, hr2, checkOne_err_valueError u hr3, checkOne_err_processing u hr3⟩
  · rw [check_iter_trace, hmain]
    rfl
  · rw [check_event_iter, hmain]

/-- Witness for c4_mismatch: the status fetch at index 2 returns file id
x while the stored record has y; the pass aborts, the record stays in
pending unchanged and the checker state is otherwise untouched. -/
theorem c4_mismatch_witness :
    check_file_status (fun _ _ => UResp.ok [Entry.mk "x" "FINISHED"])
      (FileInfoHolder.mk [] [FileInfoCache.mk 2 "y" "PROCESSING"] 3) =
      (FileInfoHolder.mk [] [FileInfoCache.mk 2 "y" "PROCESSING"] 3, [0],
        some (CheckError.valueError 2)) ∧
    (∃ r, r ∈ [FileInfoCache.mk 2 "y" "PROCESSING"] ∧
      r ∈ [FileInfoCache.mk 2 "y" "PROCESSING"] ∧ r.index = 2 ∧
      r.is_processing = true) := by
  have h := c4_mismatch (fun _ _ => UResp.ok [Entry.mk "x" "FINISHED"])
    (FileInfoHolder.mk [] [FileInfoCache.mk 2 "y" "PROCESSING"] 3) 2
    [FileInfoCache.mk 2 "y" "PROCESSING"] [2] rfl
  exact ⟨h.1, h.2.2.1⟩

/-- C10 as stated is false in one respect: a transport failure of a
fetch is not mapped to an empty list; httpx raises, so the fetch
produces an exception rather than returning [] (the claimed mapping
holds only for non-200 responses). -/
theorem c10_cex :
    fetch_files_info (fun _ _ => UResp.err) 0 1 ≠ Except.ok ([] : List Entry) := by
  intro h
  rw [fetch_files_info] at h
  cases h

/-- C10 amended: when the single-item status fetch for an in-progress
record returns an empty list (the mapping of every non-200 response;
a transport failure instead raises directly with the same
pass-aborting effect), the subscript [0] raises an IndexError that
aborts the entire pass: no record is promoted (not even those whose
statuses were already fetched successfully), none is removed from
pending, the error is caught at the loop boundary (the iteration is the
single aborted pass followed by the interval sleep) and the checker
retries after the next interval, so one failed fetch delays promotion
of every other record by at least one interval. -/
theorem c10_empty_fetch (u : Oracle) (s : FileInfoHolder) (i : Nat)
    (l' : List FileInfoCache) (log : List Nat)
    (h : checkPass u s.files_unprocessed =
      (Except.error (CheckError.indexError i, l'), log)) :
    check_file_status u s =
      (FileInfoHolder.mk s.files l' s.last_file_index, [0],
        some (CheckError.indexError i)) ∧
    (∃ r, r ∈ s.files_unprocessed ∧ r ∈ l' ∧ r.index = i ∧
      r.is_processing = true ∧ fetch_files_info u i 1 = Except.ok []) ∧
    l'.map sig = s.files_unprocessed.map sig ∧
    check_iter_trace u s = [Ev.passEv 0, Ev.sleepEv] ∧
    check_event_iter u s = FileInfoHolder.mk s.files l' s.last_file_index := by
  have h1 : (checkPass u s.files_unprocessed).1 =
      Except.error (CheckError.indexError i, l') := by rw [h]
  have hmain := check_file_status_err u s h1
  refine ⟨hmain, ?_, checkPass_err_sig u h1, ?_, ?_⟩
  · obtain ⟨r, hr1, hr2, hr3⟩ := checkPass_err_mem u h1
    obtain ⟨hri, hrf⟩ := checkOne_err_indexError u hr3
    refine ⟨r, hr1, hr2, hri, checkOne_err_processing u hr3, ?_⟩
    rw [← hri]
    exact hrf
  · rw [check_iter_trace, hmain]
    rfl
  · rw [check_event_iter, hmain]

/-- Witness for c10_empty_fetch: the status fetch for the in-progress
record at index 0 answers non-200, mapped to []; the subscript raises,
the pass aborts and even the already FINISHED record at index 1 is not
promoted in this iteration. -/
theorem c10_empty_fetch_witness :
    check_file_status (fun _ _ => UResp.notOk)
      (FileInfoHolder.mk [] [FileInfoCache.mk 0 "a" "PROCESSING",
        FileInfoCache.mk 1 "b" "FINISHED"] 2) =
      (FileInfoHolder.mk [] [FileInfoCache.mk 0 "a" "PROCESSING",
        FileInfoCache.mk 1 "b" "FINISHED"] 2, [0],
        some (CheckError.indexError 0)) ∧
    (∃ r, r ∈ [FileInfoCache.mk 0 "a" "PROCESSING",
        FileInfoCache.mk 1 "b" "FINISHED"] ∧
      r ∈ [FileInfoCache.mk 0 "a" "PROCESSING",
        FileInfoCache.mk 1 "b" "FINISHED"] ∧ r.index = 0 ∧
      r.is_processing = true ∧
      fetch_files_info (fun _ _ => UResp.notOk) 0 1 = Except.ok []) := by
  have h := c10_empty_fetch (fun _ _ => UResp.notOk)
    (FileInfoHolder.mk [] [FileInfoCache.mk 0 "a" "PROCESSING",
      FileInfoCache.mk 1 "b" "FINISHED"] 2) 0
    [FileInfoCache.mk 0 "a" "PROCESSING", FileInfoCache.mk 1 "b" "FINISHED"]
    [0] rfl
  exact ⟨h.1, h.2.1⟩

/-! ### The immediate re-run discipline -/

theorem trace_step {ps0 : List Nat} (hge : ∀ n ∈ ps0, 1 ≤ n) :
    ∀ (i n : Nat),
      ((ps0 ++ [0]).map Ev.passEv ++ [Ev.sleepEv])[i]? = some (Ev.passEv n) →
      (1 ≤ n → ∃ m,
        ((ps0 ++ [0]).map Ev.passEv ++ [Ev.sleepEv])[i+1]? = some (Ev.passEv m)) ∧
      (n = 0 →
        ((ps0 ++ [0]).map Ev.passEv ++ [Ev.sleepEv])[i+1]? = some Ev.sleepEv) := by
  induction ps0 with
  | nil =>
    intro i n h
    match i with
    | 0 =>
      simp at h
      constructor
      · intro h1
        omega
      · intro _
        rfl
    | 1 => simp at h
    | i + 2 => simp at h
  | cons a ps0 ih =>
    intro i n h
    match i with
    | 0 =>
      simp at h
      have ha : 1 ≤ a := hge a (List.mem_cons_self a ps0)
      constructor
      · intro _
        cases ps0 with
        | nil => exact ⟨0, by simp⟩
        | cons b ps1 => exact ⟨b, by simp⟩
      · intro h0
        omega
    | i + 1 =>
      have h' : ((ps0 ++ [0]).map Ev.passEv ++ [Ev.sleepEv])[i]? =
          some (Ev.passEv n) := by
        simpa using h
      have hge' : ∀ n ∈ ps0, 1 ≤ n := fun m hm => hge m (List.mem_cons_of_mem a hm)
      have := ih hge' i n h'
      constructor
      · intro h1
        obtain ⟨m, hm⟩ := this.1 h1
        exact ⟨m, by simpa using hm⟩
      · intro h0
        have := this.2 h0
        simpa using this

/-- C3: within one check_event_loop iteration, every pass that promoted
at least one record is followed immediately by another pass with no
sleep in between, and every pass that promoted none (including an
aborted one, and regardless of how many records it discarded) is
followed immediately by the full-interval sleep. -/
theorem c3_rerun (u : Oracle) (s : FileInfoHolder) (i n : Nat)
    (h : (check_iter_trace u s)[i]? = some (Ev.passEv n)) :
    (1 ≤ n → ∃ m, (check_iter_trace u s)[i+1]? = some (Ev.passEv m)) ∧
    (n = 0 → (check_iter_trace u s)[i+1]? = some Ev.sleepEv) := by
  obtain ⟨ps0, hps, hge⟩ := (chainAux_master u (s.files_unprocessed.length + 1) s _
    (check_file_status_eq_chainAux u s)).2.2.2
  have htr : check_iter_trace u s = (ps0 ++ [0]).map Ev.passEv ++ [Ev.sleepEv] := by
    rw [check_iter_trace, hps]
  rw [htr] at h
  rw [htr]
  exact trace_step hge i n h

/-- Witness for c3_rerun: a pending record already FINISHED is promoted
by the first pass (count 1), the pass re-runs immediately (a second
pass event with no sleep in between), promotes nothing, and only then
the iteration sleeps. -/
theorem c3_rerun_witness :
    (∃ m, (check_iter_trace (fun _ _ => UResp.ok [])
      (FileInfoHolder.mk [] [FileInfoCache.mk 0 "a" "FINISHED"] 1))[1]? =
        some (Ev.passEv m)) ∧
    (check_iter_trace (fun _ _ => UResp.ok [])
      (FileInfoHolder.mk [] [FileInfoCache.mk 0 "a" "FINISHED"] 1))[2]? =
        some Ev.sleepEv := by
  constructor
  · exact (c3_rerun (fun _ _ => UResp.ok [])
      (FileInfoHolder.mk [] [FileInfoCache.mk 0 "a" "FINISHED"] 1) 0 1 (by decide)).1
      (by omega)
  · exact (c3_rerun (fun _ _ => UResp.ok [])
      (FileInfoHolder.mk [] [FileInfoCache.mk 0 "a" "FINISHED"] 1) 1 0 (by decide)).2 rfl

/-- C9: a record arriving already FINISHED or Other on first listing is
deposited into pending with the literal listing status and file id (no
special-casing at creation); the checker issues single-item status
fetches only for records whose current status is the in-progress
sentinel; and on a completed pass a non-processing record is resolved
without any fetch: promoted into completed when FINISHED, discarded
into the failed class otherwise. -/
theorem c9_literal_resolution (u : Oracle) (s : FileInfoHolder) (page : List Entry) :
    (∃ created,
      (poll_apply_page page s).files_unprocessed = s.files_unprocessed ++ created ∧
      created.map (fun r => r.status) = page.map (fun e => e.processingStatus) ∧
      created.map (fun r => r.file_id) = page.map (fun e => e.fileId)) ∧
    (∀ i ∈ (checkPass u s.files_unprocessed).2,
      ∃ g ∈ s.files_unprocessed, g.index = i ∧ g.is_processing = true) ∧
    (∀ l' f, (checkPass u s.files_unprocessed).1 = Except.ok l' →
      f ∈ s.files_unprocessed → f.is_processing = false →
      (f.is_complete = true → f ∈ (check_file_status u s).1.files) ∧
      (f.is_complete = false →
        f ∈ l'.filter (fun g => !g.is_complete && !g.is_processing))) := by
  refine ⟨?_, ?_, ?_⟩
  · refine ⟨page.enum.map (fun p =>
      FileInfoCache.mk (s.last_file_index + p.1) p.2.fileId p.2.processingStatus),
      ?_, ?_, ?_⟩
    · rw [poll_apply_page_spec]
    · exact enum_records_map_status s.last_file_index page
    · exact enum_records_map_file_id s.last_file_index page
  · intro i hi
    exact checkPass_log_mem u hi
  · intro l' f hp hf hnp
    have hfl : f ∈ l' := checkPass_ok_mem_of_not_processing u hp hf hnp
    constructor
    · intro hcompl
      apply (check_first_pass_state u s hp).1
      exact List.mem_append_right _ (List.mem_filter.mpr ⟨hfl, hcompl⟩)
    · intro hncompl
      exact List.mem_filter.mpr ⟨hfl, by simp [hncompl, hnp]⟩

/-- Witness for c9_literal_resolution: a pending record created from a
FAILED listing entry keeps the literal status; the fetch log of a pass
over one in-progress record names exactly its index; a FINISHED record
is promoted and a FAILED record lands in the discarded class, with no
fetch issued for either. -/
theorem c9_literal_resolution_witness :
    (∃ g ∈ [FileInfoCache.mk 0 "a" "PROCESSING"],
      g.index = 0 ∧ g.is_processing = true) ∧
    FileInfoCache.mk 1 "b" "FINISHED" ∈
      (check_file_status (fun _ _ => UResp.ok [])
        (FileInfoHolder.mk [] [FileInfoCache.mk 0 "a" "FAILED",
          FileInfoCache.mk 1 "b" "FINISHED"] 2)).1.files ∧
    FileInfoCache.mk 0 "a" "FAILED" ∈
      [FileInfoCache.mk 0 "a" "FAILED", FileInfoCache.mk 1 "b" "FINISHED"].filter
        (fun g => !g.is_complete && !g.is_processing) := by
  refine ⟨?_, ?_, ?_⟩
  · exact (c9_literal_resolution (fun _ _ => UResp.ok [Entry.mk "a" "FINISHED"])
      (FileInfoHolder.mk [] [FileInfoCache.mk 0 "a" "PROCESSING"] 1) []).2.1 0
      (by decide)
  · exact ((c9_literal_resolution (fun _ _ => UResp.ok [])
      (FileInfoHolder.mk [] [FileInfoCache.mk 0 "a" "FAILED",
        FileInfoCache.mk 1 "b" "FINISHED"] 2) []).2.2
      [FileInfoCache.mk 0 "a" "FAILED", FileInfoCache.mk 1 "b" "FINISHED"]
      (FileInfoCache.mk 1 "b" "FINISHED") rfl (by decide) (by decide)).1 (by decide)
  · exact ((c9_literal_resolution (fun _ _ => UResp.ok [])
      (FileInfoHolder.mk [] [FileInfoCache.mk 0 "a" "FAILED",
        FileInfoCache.mk 1 "b" "FINISHED"] 2) []).2.2
      [FileInfoCache.mk 0 "a" "FAILED", FileInfoCache.mk 1 "b" "FINISHED"]
      (FileInfoCache.mk 0 "a" "FAILED") rfl (by decide) (by decide)).2 (by decide)

/-- C6: at every reachable state, assuming the upstream listing never
returns the same file id at two different indices, a file id is present
in at most one of pending and completed; and once a file id is in
completed it stays there at every later reachable state and is never
re-inserted into pending. -/
theorem c6_disjoint (fid : Nat → String) (hinj : Function.Injective fid)
    (s t : FileInfoHolder) (hs : Reachable fid s)
    (hst : Relation.ReflTransGen (Step fid) s t) (id : String) :
    ¬((∃ r ∈ s.files_unprocessed, r.file_id = id) ∧
      (∃ r ∈ s.files, r.file_id = id)) ∧
    ((∃ r ∈ s.files, r.file_id = id) →
      (∃ r ∈ t.files, r.file_id = id) ∧
      ¬(∃ r ∈ t.files_unprocessed, r.file_id = id)) := by
  have key : ∀ w, Reachable fid w →
      ¬((∃ r ∈ w.files_unprocessed, r.file_id = id) ∧
        (∃ r ∈ w.files, r.file_id = id)) := by
    rintro w hw ⟨⟨r1, h1, h1e⟩, ⟨r2, h2, h2e⟩⟩
    obtain ⟨hnd, hbound, hfid⟩ := reachable_cacheInv hw
    have hm1 : r1 ∈ recs w := by
      rw [recs]
      exact List.mem_append_left _ h1
    have hm2 : r2 ∈ recs w := by
      rw [recs]
      exact List.mem_append_right _ h2
    have e1 : fid r1.index = fid r2.index := by
      rw [← hfid r1 hm1, ← hfid r2 hm2, h1e, h2e]
    have e2 : r1.index = r2.index := hinj e1
    rw [idxs, recs, List.map_append, List.nodup_append] at hnd
    have hdis := hnd.2.2
    exact hdis (List.mem_map_of_mem _ h1)
      (by rw [e2]; exact List.mem_map_of_mem _ h2)
  constructor
  · exact key s hs
  · rintro ⟨r2, h2, h2e⟩
    constructor
    · exact ⟨r2, rtg_files_mono hst r2 h2, h2e⟩
    · intro hpend
      exact key t (Relation.ReflTransGen.trans hs hst)
        ⟨hpend, ⟨r2, rtg_files_mono hst r2 h2, h2e⟩⟩

/-- Witness for c6_disjoint: an injective listing assignment, the
initial state and the empty step sequence. -/
theorem c6_disjoint_witness :
    ¬((∃ r ∈ initState.files_unprocessed, r.file_id = "x") ∧
      (∃ r ∈ initState.files, r.file_id = "x")) ∧
    ((∃ r ∈ initState.files, r.file_id = "x") →
      (∃ r ∈ initState.files, r.file_id = "x") ∧
      ¬(∃ r ∈ initState.files_unprocessed, r.file_id = "x")) :=
  c6_disjoint (fun n => String.mk (List.replicate n 'a'))
    (fun a b h => by
      have h2 := congrArg (fun str => str.data.length) h
      simpa using h2)
    initState initState Relation.ReflTransGen.refl Relation.ReflTransGen.refl "x"

/-- C5: a record whose status as observed by a completed checker sweep
is Other (neither FINISHED nor PROCESSING) is removed from pending by
that check_file_status call, is never put into completed, and no record
with its listing index ever reappears in either collection in any later
reachable state. -/
theorem c5_other_discarded (fid : Nat → String) (u : Oracle) (s : FileInfoHolder)
    (l' : List FileInfoCache) (f : FileInfoCache)
    (hreach : Reachable fid s)
    (hp : (checkPass u s.files_unprocessed).1 = Except.ok l')
    (hf : f ∈ l') (hnc : f.is_complete = false) (hnp : f.is_processing = false) :
    (∀ g ∈ (check_file_status u s).1.files_unprocessed, g.index ≠ f.index) ∧
    (∀ g ∈ (check_file_status u s).1.files, g.index ≠ f.index) ∧
    (∀ t, Relation.ReflTransGen (Step fid) (check_file_status u s).1 t →
      ∀ g ∈ recs t, g.index ≠ f.index) := by
  obtain ⟨hnd, hbound, hfid⟩ := reachable_cacheInv hreach
  have hsig : l'.map sig = s.files_unprocessed.map sig := checkPass_ok_sig u hp
  have horig : ∀ x ∈ l', ∃ x0 ∈ s.files_unprocessed,
      x0.index = x.index ∧ x0.file_id = x.file_id := by
    intro x hx
    have hmem : sig x ∈ s.files_unprocessed.map sig := by
      rw [← hsig]
      exact List.mem_map_of_mem sig hx
    obtain ⟨x0, hx0, hx0e⟩ := List.mem_map.mp hmem
    exact ⟨x0, hx0, congrArg Prod.fst hx0e, congrArg Prod.snd hx0e⟩
  have hlfid : ∀ x ∈ l', x.file_id = fid x.index := by
    intro x hx
    obtain ⟨x0, hx0, hxi, hxf⟩ := horig x hx
    rw [← hxf, ← hxi]
    exact hfid x0 (by rw [recs]; exact List.mem_append_left _ hx0)
  have hnds : ((recs s).map sig).Nodup := by
    apply List.Nodup.of_map Prod.fst
    rw [← idxs_eq_sig_fst]
    exact hnd
  have hndl : (l'.map sig).Nodup := by
    rw [hsig]
    rw [recs, List.map_append, List.nodup_append] at hnds
    exact hnds.1
  have huniq : ∀ x ∈ l', x.index = f.index → x = f := by
    intro x hx hxi
    apply List.inj_on_of_nodup_map hndl hx hf
    have hxfi : x.file_id = f.file_id := by
      rw [hlfid x hx, hxi, ← hlfid f hf]
    simp only [sig, hxi, hxfi]
  obtain ⟨f0, hf0, hf0i, _⟩ := horig f hf
  have hcur : f.index < s.last_file_index := by
    rw [← hf0i]
    exact hbound f0 (by rw [recs]; exact List.mem_append_left _ hf0)
  have habs1 : ∀ g ∈ recs { files := s.files ++ l'.filter (fun x => x.is_complete),
                            files_unprocessed := l'.filter (fun x => !x.is_complete && x.is_processing),
                            last_file_index := s.last_file_index }, g.index ≠ f.index := by
    intro g hg hgi
    rw [recs] at hg
    dsimp only at hg
    rcases List.mem_append.mp hg with h1 | h2
    · have hmem := List.mem_filter.mp h1
      have heq := huniq g hmem.1 hgi
      subst heq
      simp [hnc, hnp] at hmem
    · rcases List.mem_append.mp h2 with h3 | h4
      · rw [idxs, recs, List.map_append, List.nodup_append] at hnd
        refine hnd.2.2 (List.mem_map_of_mem _ hf0) ?_
        have hgf0 : f0.index = g.index := by rw [hf0i, hgi]
        rw [hgf0]
        exact List.mem_map_of_mem _ h3
      · have hmem := List.mem_filter.mp h4
        have heq := huniq g hmem.1 hgi
        subst heq
        simp [hnc] at hmem
  have hfin := (check_first_pass_state u s hp).2 f.index habs1
  refine ⟨?_, ?_, ?_⟩
  · intro g hg
    exact hfin g (by rw [recs]; exact List.mem_append_left _ hg)
  · intro g hg
    exact hfin g (by rw [recs]; exact List.mem_append_right _ hg)
  · intro t ht g hg
    have hcur' : f.index < (check_file_status u s).1.last_file_index := by
      rw [check_state_cursor]
      exact hcur
    exact rtg_absent ht hcur' hfin g hg

/-- Witness for c5_other_discarded: a record listed with the terminal
status FAILED reaches pending through one poll step; the next completed
checker sweep discards it, after which neither collection holds a
record with its index. -/
theorem c5_other_discarded_witness :
    (∀ g ∈ (check_file_status (fun _ _ => UResp.ok [])
        (FileInfoHolder.mk [] [FileInfoCache.mk 0 "a" "FAILED"] 1)).1.files_unprocessed,
      g.index ≠ 0) ∧
    (∀ g ∈ (check_file_status (fun _ _ => UResp.ok [])
        (FileInfoHolder.mk [] [FileInfoCache.mk 0 "a" "FAILED"] 1)).1.files,
      g.index ≠ 0) := by
  have hv : ValidListing (fun _ => "a")
      (fun _ _ => UResp.ok [Entry.mk "a" "FAILED"]) := by
    intro o l es j e h1 h2
    injection h1 with h1
    subst h1
    cases j with
    | zero =>
      simp at h2
      rw [← h2]
    | succ j => simp at h2
  have hstep : Step (fun _ => "a") initState
      (FileInfoHolder.mk [] [FileInfoCache.mk 0 "a" "FAILED"] 1) :=
    Step.poll (fun _ _ => UResp.ok [Entry.mk "a" "FAILED"]) initState hv
  have h := c5_other_discarded (fun _ => "a") (fun _ _ => UResp.ok [])
    (FileInfoHolder.mk [] [FileInfoCache.mk 0 "a" "FAILED"] 1)
    [FileInfoCache.mk 0 "a" "FAILED"] (FileInfoCache.mk 0 "a" "FAILED")
    (Relation.ReflTransGen.single hstep) rfl (by decide) (by decide) (by decide)
  exact ⟨h.1, h.2.1⟩
